import Mathlib

/-!
Shallow embedding of the mapback tile-pyramid tool (`src/main.rs`).

The program reads map tiles stored as `root/zoom/x/y.png` and, for each
source tile found at zoom `z`, composes the destination tile at zoom
`z - 1` out of the four finer tiles of the destination's quad.

External effects (filesystem and image codec) are modelled by an explicit
environment `Env` of pure functions; each program function is translated
into a pure Lean function over that environment, returning the effects it
performs (paths consulted, files written, directories created, progress
increments).  A Rust panic (a failing `unwrap`) is modelled by
`Option.none`.
-/

/-- Rust `str::split('/')`, modelled on the character list of a string. -/
def split_slash (s : String) : List String :=
  (s.data.splitOn '/').map String.mk

/-- Joining path components back with `/` (inverse of `split_slash`). -/
def join_slash : List String → String
  | [] => ""
  | [p] => p
  | p :: ps => p ++ "/" ++ join_slash ps

/-- Rust `str::strip_suffix`: removes `suf` from the end of `s` when
`s` ends with it, otherwise `none`. -/
def strip_suffix (s suf : String) : Option String :=
  if suf.data.isSuffixOf s.data then
    some (String.mk (s.data.take (s.data.length - suf.data.length)))
  else none

/-- Rust `Path::parent`: the path with its last component removed.
`none` when there is no parent component (models the panic or I/O error
the program would hit in that unreachable case). -/
def path_parent (s : String) : Option String :=
  match (split_slash s).dropLast with
  | [] => none
  | ps => some (join_slash ps)

/-- Rust `Path::extension`: the portion of the last path component after
its final `.`, provided the component does not consist of a bare leading
dot; `none` otherwise. -/
def path_extension (s : String) : Option String :=
  match (split_slash s).getLast? with
  | none => none
  | some fname =>
    match fname.data with
    | [] => none
    | _ :: rest =>
      if '.' ∈ rest then
        some (String.mk ((rest.reverse.takeWhile (fun c => c ≠ '.')).reverse))
      else none

/-- Rust `Path::strip_prefix`: removes the leading components equal to
`base` from `s`, component-wise. -/
def strip_prefix_path (s base : String) : Option String :=
  if (split_slash base).isPrefixOf (split_slash s) then
    some (join_slash ((split_slash s).drop (split_slash base).length))
  else none

/-- The ASCII digit character for `n < 10`. -/
def digitChar (n : Nat) : Char := Char.ofNat (48 + n)

/-- Decimal digits of `n`, most significant first; fuel-based recursion so
that the kernel can evaluate it (`fmt_nat` supplies sufficient fuel). -/
def fmt_digits : Nat → Nat → List Char
  | 0, _ => []
  | fuel + 1, n =>
    if n < 10 then [digitChar n] else fmt_digits fuel (n / 10) ++ [digitChar (n % 10)]

/-- Rust `format!` of an unsigned integer: its decimal representation. -/
def fmt_nat (n : Nat) : String := String.mk (fmt_digits (n + 1) n)

/-- Rust `str::parse::<u32>`: optional leading `+`, then one or more ASCII
digits, failing on any other character and on overflow past `u32::MAX`. -/
def parse_u32 (s : String) : Option Nat :=
  let t := if s.data.head? = some '+' then s.data.tail else s.data
  if t ≠ [] ∧ t.all Char.isDigit = true then
    let n := t.foldl (fun acc c => acc * 10 + (c.toNat - 48)) 0
    if n < 4294967296 then some n else none
  else none

/-- The tile path `format!("{}/{}/{}/{}.png", folder, zoom, x, y)` used by
`process_image_path` both for the source quadrants and the output tile. -/
def tile_path (folder : String) (zoom x y : Nat) : String :=
  folder ++ "/" ++ fmt_nat zoom ++ "/" ++ fmt_nat x ++ "/" ++ fmt_nat y ++ ".png"

/-- RGBA pixel with 8-bit channels, `image::Rgba<u8>`. -/
abbrev Rgba := Nat × Nat × Nat × Nat

/-- In-memory raster, `image::ImageBuffer<Rgba<u8>, Vec<u8>>`: a width, a
height and the pixel contents. -/
structure ImageBuffer where
  width : Nat
  height : Nat
  pix : Nat → Nat → Rgba

/-- `ImageBuffer::new(w, h)`: the image crate zero-initializes the buffer,
so every pixel starts out as `(0, 0, 0, 0)`. -/
def ImageBuffer.new (w h : Nat) : ImageBuffer :=
  ⟨w, h, fun _ _ => (0, 0, 0, 0)⟩

/-- `ImageBuffer::put_pixel`. -/
def put_pixel (image : ImageBuffer) (x y : Nat) (c : Rgba) : ImageBuffer :=
  { image with pix := fun a b => if a = x ∧ b = y then c else image.pix a b }

/-- `fn fill_transparent` from `src/main.rs`: for each `i in 0..width` and
`j in 0..height`, writes the fully transparent pixel at `(x + i, y + j)`. -/
def fill_transparent (image : ImageBuffer) (x y width height : Nat) : ImageBuffer :=
  (List.range width).foldl
    (fun image i =>
      (List.range height).foldl
        (fun image j => put_pixel image (x + i) (y + j) (0, 0, 0, 0)) image)
    image

/-- `image::imageops::FilterType`. -/
inductive FilterType where
  | Nearest
  | Triangle
  | CatmullRom
  | Gaussian
  | Lanczos3
deriving DecidableEq

/-- `GenericImage::copy_from(&src, x, y)`: fails when the source does not
fit inside the destination at offset `(x, y)`, otherwise replaces the
destination pixels of that region with the source pixels. -/
def copy_from (dst src : ImageBuffer) (x y : Nat) : Option ImageBuffer :=
  if src.width + x ≤ dst.width ∧ src.height + y ≤ dst.height then
    some { dst with
      pix := fun a b =>
        if x ≤ a ∧ a < x + src.width ∧ y ≤ b ∧ b < y + src.height then
          src.pix (a - x) (b - y)
        else dst.pix a b }
  else none

/-- The external world of the program: filesystem queries (`Path::exists`,
`fs::read_dir` returning the full paths of a directory's entries, and
opening-plus-decoding an image file) together with the image crate's
`resize`, which always returns a raster of the requested dimensions. -/
structure Env where
  pathExists : String → Bool
  readDir : String → Option (List String)
  decodeImg : String → Option ImageBuffer
  resize : ImageBuffer → Nat → Nat → FilterType → ImageBuffer
  resize_width : ∀ im w h f, (resize im w h f).width = w
  resize_height : ∀ im w h f, (resize im w h f).height = h

/-- The observable effects of one `process_image_path` call: source paths
consulted (existence-checked and, when present, read), files saved,
directories created with `create_dir_all`, and progress-bar increments. -/
structure ProcEffect where
  reads : List String
  writes : List (String × ImageBuffer)
  dirs : List String
  progress : Nat

/-- `fn parse_image_path` from `src/main.rs`: split on `/`, parse part 1
as the x coordinate and part 2 as the y coordinate; `none` models the
panic on a missing part or a failing integer parse. -/
def parse_image_path (image_path : String) : Option (Nat × Nat) :=
  let parts := split_slash image_path
  match parts[1]? with
  | none => none
  | some sx =>
    match parse_u32 sx with
    | none => none
    | some x =>
      match parts[2]? with
      | none => none
      | some sy =>
        match parse_u32 sy with
        | none => none
        | some y => some (x, y)

/-- The list `(min_zoom..=max_zoom).rev()` scanned by
`find_last_zoom_level`; empty when `min_zoom > max_zoom`. -/
def rev_range_incl (lo hi : Nat) : List Nat :=
  (List.range' lo (hi + 1 - lo)).reverse

/-- `fn find_last_zoom_level` from `src/main.rs`: the first zoom counting
down from `max_zoom` to `min_zoom` whose directory `folder/zoom` exists,
defaulting to `min_zoom`.  A pure function of the existence predicate: it
performs no writes. -/
def find_last_zoom_level (env : Env) (folder : String) (max_zoom min_zoom : Nat) : Nat :=
  ((rev_range_incl min_zoom max_zoom).find?
    (fun zoom => env.pathExists (folder ++ "/" ++ fmt_nat zoom))).getD min_zoom

/-- `fn collect_image_paths` from `src/main.rs`: walk `folder/zoom_level`
one directory level down, then its entries, keeping files with extension
`png`, stripped of the `folder` prefix.  Unreadable or missing
directories contribute nothing. -/
def collect_image_paths (env : Env) (folder : String) (zoom_level : Nat) : List String :=
  let zoom_dir := folder ++ "/" ++ fmt_nat zoom_level
  match env.readDir zoom_dir with
  | none => []
  | some x_entries =>
    x_entries.foldl
      (fun image_paths x_entry =>
        match env.readDir x_entry with
        | none => image_paths
        | some y_entries =>
          y_entries.foldl
            (fun image_paths y_path =>
              if path_extension y_path = some ("png") then
                match strip_prefix_path y_path folder with
                | some image_path => image_paths ++ [image_path]
                | none => image_paths
              else image_paths)
            image_paths)
      []

/-- One iteration of the quadrant loop of `process_image_path`: consult
the source tile at `(back_x*2 + i, back_y*2 + j)`; if it exists, decode
it, resize it to 256x256 with the Lanczos3 filter and copy it into the
output at `(i*256, j*256)`, otherwise fill that region with transparent
pixels.  The state carries the output image and the paths consulted. -/
def quad_step (env : Env) (folder : String) (zoom_level back_x back_y : Nat)
    (st : ImageBuffer × List String) (i j : Nat) : Option (ImageBuffer × List String) :=
  let path := tile_path folder zoom_level (back_x * 2 + i) (back_y * 2 + j)
  if env.pathExists path then
    match env.decodeImg path with
    | some image =>
      let resized_image := env.resize image 256 256 FilterType.Lanczos3
      match copy_from st.1 resized_image (i * 256) (j * 256) with
      | some composed => some (composed, st.2 ++ [path])
      | none => none
    | none => none
  else
    some (fill_transparent st.1 (i * 256) (j * 256) 256 256, st.2 ++ [path])

/-- The nested `for i in 0..2 { for j in 0..2 { ... } }` quadrant loop of
`process_image_path`. -/
def compose_quadrants (env : Env) (folder : String) (zoom_level back_x back_y : Nat)
    (output_image : ImageBuffer) : Option (ImageBuffer × List String) :=
  (List.range 2).foldlM
    (fun st i =>
      (List.range 2).foldlM
        (fun st2 j => quad_step env folder zoom_level back_x back_y st2 i j) st)
    (output_image, ([] : List String))

/-- `fn process_image_path` from `src/main.rs`.  If the path ends in
`.png`: parse `(x, y)`, compose the four quadrants of destination
coordinate `(x/2, y/2)` into a fresh 512x512 buffer, create the output
tile's parent directory and save the output tile (unconditionally, with
no existence check on the destination).  Otherwise only the progress bar
is incremented.  `none` models a panic. -/
def process_image_path (env : Env) (folder : String) (image_path : String)
    (output_zoom_level zoom_level : Nat) : Option ProcEffect :=
  match strip_suffix image_path (".png") with
  | some stem =>
    match parse_image_path stem with
    | none => none
    | some (x, y) =>
      let back_x := x / 2
      let back_y := y / 2
      let back_path := tile_path folder output_zoom_level back_x back_y
      let output_image := ImageBuffer.new 512 512
      match compose_quadrants env folder zoom_level back_x back_y output_image with
      | none => none
      | some (composed, reads) =>
        match path_parent back_path with
        | none => none
        | some parent_dir => some ⟨reads, [(back_path, composed)], [parent_dir], 1⟩
  | none => some ⟨[], [], [], 1⟩

/-- All ancestor directories created by `fs::create_dir_all(dir)`:
the joins of every nonempty prefix of the components of `dir`. -/
def dir_prefixes (dir : String) : List String :=
  (List.range (split_slash dir).length).map
    (fun k => join_slash ((split_slash dir).take (k + 1)))

/-- Filesystem state after `fs::create_dir_all(dir)`: the directory and
all its ancestors exist, and each of them appears in its parent's
listing. -/
def Env.applyMkdirAll (env : Env) (dir : String) : Env :=
  { env with
    pathExists := fun p => if p ∈ dir_prefixes dir then true else env.pathExists p
    readDir := fun d =>
      let created := (dir_prefixes dir).filter
        (fun c => decide (path_parent c = some d) && !((env.readDir d).getD []).contains c)
      match env.readDir d with
      | some es => some (es ++ created)
      | none => if d ∈ dir_prefixes dir then some created else none }

/-- Filesystem state after `ImageBuffer::save(path)`: the file exists,
decodes back to the saved raster (PNG round-trips RGBA8 losslessly) and
appears in its parent directory's listing. -/
def Env.applySave (env : Env) (path : String) (im : ImageBuffer) : Env :=
  { env with
    pathExists := fun p => if p = path then true else env.pathExists p
    decodeImg := fun p => if p = path then some im else env.decodeImg p
    readDir := fun d =>
      match env.readDir d with
      | some es =>
        if path_parent path = some d ∧ ¬ path ∈ es then some (es ++ [path]) else some es
      | none => none }

/-- Filesystem state after one `process_image_path` call: the directories
it created, then the files it saved. -/
def Env.applyEffect (env : Env) (eff : ProcEffect) : Env :=
  eff.writes.foldl (fun e w => e.applySave w.1 w.2)
    (eff.dirs.foldl (fun e d => e.applyMkdirAll d) env)

/-- The per-level `for image_path in image_paths` loop of `main`,
threading the filesystem state through the calls; `none` models a panic
aborting the run. -/
def process_level (env : Env) (folder : String) (paths : List String)
    (output_zoom_level zoom_level : Nat) : Option (Env × List ProcEffect) :=
  paths.foldlM
    (fun (st : Env × List ProcEffect) image_path =>
      match process_image_path st.1 folder image_path output_zoom_level zoom_level with
      | none => none
      | some eff => some (st.1.applyEffect eff, st.2 ++ [eff]))
    (env, ([] : List ProcEffect))

/-- The `while zoom_level > min_zoom` driver loop of `main`: enumerate the
tiles of the current level, create the output level directory, reduce
every enumerated tile, then continue one level down.  Returns the
concatenated effects of all calls. -/
def main_loop (env : Env) (folder : String) (zoom_level min_zoom : Nat) :
    Option (List ProcEffect) :=
  if _h : min_zoom < zoom_level then
    let image_paths := collect_image_paths env folder zoom_level
    let output_zoom_level := zoom_level - 1
    let output_dir := folder ++ "/" ++ fmt_nat output_zoom_level
    let env1 := env.applyMkdirAll output_dir
    match process_level env1 folder image_paths output_zoom_level zoom_level with
    | none => none
    | some (env2, effs) =>
      match main_loop env2 folder (zoom_level - 1) min_zoom with
      | none => none
      | some rest => some (effs ++ rest)
  else some []
termination_by zoom_level
decreasing_by omega

/-- `fn main` from `src/main.rs` after argument parsing: check the folder
exists (`none` models `process::exit(1)`), locate the starting zoom level
and run the driver loop. -/
def main_run (env : Env) (folder : String) (max_zoom min_zoom : Nat) :
    Option (List ProcEffect) :=
  if env.pathExists folder then
    main_loop env folder (find_last_zoom_level env folder max_zoom min_zoom) min_zoom
  else none

/-- A fully empty world: no paths exist, nothing is readable, and `resize`
returns a blank raster of the requested dimensions.  Used to evaluate the
program on concrete inputs. -/
def envNone : Env where
  pathExists := fun _ => false
  readDir := fun _ => none
  decodeImg := fun _ => none
  resize := fun _ w h _ => ⟨w, h, fun _ _ => (0, 0, 0, 0)⟩
  resize_width := fun _ _ _ _ => rfl
  resize_height := fun _ _ _ _ => rfl

/-- A world where exactly the directory `r/3` exists. -/
def envZoom3 : Env :=
  { envNone with pathExists := fun p => p == ("r/3") }

/-- Placeholder effect used as a `getD` default. -/
def effNone : ProcEffect := ⟨[], [], [], 0⟩

/-- The effect of processing the tile `1/5/7.png` of zoom 3 in the empty
world. -/
def effW : ProcEffect :=
  (process_image_path envNone ("r") ("1/5/7.png") 2 3).getD effNone

/-- The raster written by that call. -/
def imgW : ImageBuffer :=
  (effW.writes.getD 0 (("", ImageBuffer.new 0 0))).2

/-! ### Decimal formatting and parsing -/

lemma digitChar_isDigit (d : Nat) (h : d < 10) : (digitChar d).isDigit = true := by
  interval_cases d <;> decide

lemma digitChar_toNat (d : Nat) (h : d < 10) : (digitChar d).toNat = 48 + d := by
  interval_cases d <;> decide

lemma fmt_digits_spec (fuel : Nat) : ∀ n : Nat, n < 10 ^ fuel → 1 ≤ fuel →
    (fmt_digits fuel n).foldl (fun acc c => acc * 10 + (c.toNat - 48)) 0 = n ∧
    (∀ c ∈ fmt_digits fuel n, c.isDigit = true) ∧ fmt_digits fuel n ≠ [] := by
  induction fuel with
  | zero => intro n _ h2; omega
  | succ fuel ih =>
    intro n h1 _
    by_cases hn : n < 10
    · refine ⟨?_, ?_, ?_⟩ <;> simp [fmt_digits, hn, digitChar_isDigit, digitChar_toNat]
    · have hfuel : 1 ≤ fuel := by
        rcases Nat.eq_zero_or_pos fuel with h0 | h0
        · subst h0; simp at h1; omega
        · exact h0
      have hdiv : n / 10 < 10 ^ fuel := by
        rw [Nat.div_lt_iff_lt_mul (by norm_num)]
        calc n < 10 ^ (fuel + 1) := h1
        _ = 10 ^ fuel * 10 := by rw [pow_succ]
      obtain ⟨hval, hdig, _⟩ := ih (n / 10) hdiv hfuel
      refine ⟨?_, ?_, ?_⟩
      · simp only [fmt_digits, if_neg hn, List.foldl_append, hval, List.foldl_cons,
          List.foldl_nil]
        rw [digitChar_toNat (n % 10) (Nat.mod_lt _ (by norm_num))]
        omega
      · intro c hc
        simp only [fmt_digits, if_neg hn, List.mem_append, List.mem_singleton] at hc
        rcases hc with hc | hc
        · exact hdig c hc
        · subst hc; exact digitChar_isDigit _ (Nat.mod_lt _ (by norm_num))
      · simp [fmt_digits, if_neg hn]

lemma fmt_nat_spec (n : Nat) :
    (fmt_nat n).data.foldl (fun acc c => acc * 10 + (c.toNat - 48)) 0 = n ∧
    (∀ c ∈ (fmt_nat n).data, c.isDigit = true) ∧ (fmt_nat n).data ≠ [] := by
  have h1 : n < 10 ^ (n + 1) :=
    lt_of_lt_of_le (Nat.lt_pow_self (by norm_num) n)
      (Nat.pow_le_pow_right (by norm_num) (Nat.le_succ n))
  exact fmt_digits_spec (n + 1) n h1 (Nat.le_add_left 1 n)

lemma fmt_nat_no_slash (n : Nat) : '/' ∉ (fmt_nat n).data := by
  intro h
  have := (fmt_nat_spec n).2.1 '/' h
  simp [Char.isDigit] at this

lemma parse_u32_fmt_nat (n : Nat) (h : n < 4294967296) : parse_u32 (fmt_nat n) = some n := by
  obtain ⟨hval, hdig, hne⟩ := fmt_nat_spec n
  have hd : ¬ (fmt_nat n).data.head? = some '+' := by
    intro hh
    have hmem : '+' ∈ (fmt_nat n).data := List.mem_of_mem_head? (by rw [hh]; rfl)
    have := hdig '+' hmem
    simp [Char.isDigit] at this
  unfold parse_u32
  rw [if_neg hd, if_pos ⟨hne, List.all_eq_true.mpr hdig⟩]
  simp only [hval, if_pos h]

/-! ### Path splitting and joining -/

lemma modifyHead_append' {α : Type _} (f : α → α) (l t : List α) (h : l ≠ []) :
    (l ++ t).modifyHead f = l.modifyHead f ++ t := by
  cases l with
  | nil => exact absurd rfl h
  | cons a as => simp [List.modifyHead]

lemma splitOn_slash_append (l1 l2 : List Char) :
    (l1 ++ '/' :: l2).splitOn '/' = l1.splitOn '/' ++ l2.splitOn '/' := by
  induction l1 with
  | nil => simp [List.splitOn, List.splitOnP_cons]
  | cons c cs ih =>
    simp only [List.cons_append, List.splitOn, List.splitOnP_cons] at *
    by_cases hc : c = '/'
    · subst hc
      simp only [beq_self_eq_true, if_true, ih, List.cons_append]
    · have hcb : (c == '/') = false := beq_eq_false_iff_ne.mpr hc
      simp only [hcb, Bool.false_eq_true, if_false, ih]
      exact modifyHead_append' _ _ _ (List.splitOnP_ne_nil _ _)

lemma string_data_ext {s t : String} (h : s.data = t.data) : s = t :=
  congrArg String.mk h

lemma data_append3 (a b : String) : (a ++ "/" ++ b).data = a.data ++ '/' :: b.data := by
  simp [String.data_append]

lemma split_slash_append (a b : String) :
    split_slash (a ++ "/" ++ b) = split_slash a ++ split_slash b := by
  unfold split_slash
  rw [data_append3, splitOn_slash_append, List.map_append]

lemma split_slash_no_slash (b : String) (h : '/' ∉ b.data) : split_slash b = [b] := by
  unfold split_slash
  rw [show b.data.splitOn '/' = [b.data] from
    List.splitOnP_eq_single _ _ (fun x hx => by
      simp only [beq_iff_eq]
      intro hxe; exact h (hxe ▸ hx))]
  rfl

lemma split_slash_ne_nil (a : String) : split_slash a ≠ [] := by
  unfold split_slash
  intro h
  exact List.splitOnP_ne_nil _ _ (List.map_eq_nil_iff.mp h)

lemma intercalate_cons_cons' {α : Type _} (sep : List α) (a b : List α) (l : List (List α)) :
    List.intercalate sep (a :: b :: l) = a ++ sep ++ List.intercalate sep (b :: l) := by
  simp [List.intercalate, List.intersperse, List.append_assoc]

lemma join_slash_map_mk (css : List (List Char)) :
    (join_slash (css.map String.mk)).data = List.intercalate ['/'] css := by
  induction css with
  | nil => rfl
  | cons c cs ih =>
    cases cs with
    | nil => simp [join_slash, List.intercalate, List.intersperse]
    | cons c2 cs2 =>
      rw [List.map_cons, show (String.mk c :: (c2 :: cs2).map String.mk) =
        String.mk c :: ((c2 :: cs2).map String.mk) from rfl]
      rw [show join_slash (String.mk c :: (c2 :: cs2).map String.mk) =
        String.mk c ++ "/" ++ join_slash ((c2 :: cs2).map String.mk) from rfl]
      rw [data_append3, ih, intercalate_cons_cons']
      simp

lemma join_slash_split_slash (a : String) : join_slash (split_slash a) = a := by
  apply string_data_ext
  unfold split_slash
  rw [join_slash_map_mk, List.intercalate_splitOn]

lemma path_parent_append (a w : String) (h : '/' ∉ w.data) :
    path_parent (a ++ "/" ++ w) = some a := by
  unfold path_parent
  rw [split_slash_append, split_slash_no_slash w h, List.dropLast_concat]
  rcases List.exists_cons_of_ne_nil (split_slash_ne_nil a) with ⟨c, cs, hcc⟩
  rw [hcc]
  show some (join_slash (c :: cs)) = some a
  rw [← hcc, join_slash_split_slash]

lemma strip_suffix_append_png (a : String) :
    strip_suffix (a ++ ".png") (".png") = some a := by
  unfold strip_suffix
  have hsfx : (".png" : String).data.isSuffixOf (a ++ ".png").data = true := by
    rw [List.isSuffixOf_iff_suffix, String.data_append]
    exact List.suffix_append _ _
  rw [if_pos hsfx]
  congr 1
  apply string_data_ext
  rw [String.data_append]
  simp only [List.length_append]
  exact List.take_left a.data _

/-! ### Pixel-level characterization of the raster operations -/

lemma put_pixel_pix (image : ImageBuffer) (x y : Nat) (c : Rgba) (a b : Nat) :
    (put_pixel image x y c).pix a b = if a = x ∧ b = y then c else image.pix a b := rfl

lemma fill_col_pix (x0 y : Nat) (c : Rgba) (h : Nat) (image : ImageBuffer) (a b : Nat) :
    ((List.range h).foldl (fun im j => put_pixel im x0 (y + j) c) image).pix a b
    = if a = x0 ∧ y ≤ b ∧ b < y + h then c else image.pix a b := by
  induction h with
  | zero => rw [List.range_zero, List.foldl_nil, if_neg (by omega)]
  | succ h ih =>
    rw [List.range_succ, List.foldl_append, List.foldl_cons, List.foldl_nil,
      put_pixel_pix, ih]
    split_ifs <;> first | rfl | omega

lemma fill_transparent_pix (image : ImageBuffer) (x y w h a b : Nat) :
    (fill_transparent image x y w h).pix a b
    = if x ≤ a ∧ a < x + w ∧ y ≤ b ∧ b < y + h then (0, 0, 0, 0) else image.pix a b := by
  unfold fill_transparent
  induction w with
  | zero => rw [List.range_zero, List.foldl_nil, if_neg (by omega)]
  | succ w ih =>
    rw [List.range_succ, List.foldl_append, List.foldl_cons, List.foldl_nil,
      fill_col_pix, ih]
    split_ifs <;> first | rfl | omega

lemma copy_from_some {dst src : ImageBuffer} {x y : Nat} {out : ImageBuffer}
    (h : copy_from dst src x y = some out) (a b : Nat) :
    out.pix a b =
      if x ≤ a ∧ a < x + src.width ∧ y ≤ b ∧ b < y + src.height then
        src.pix (a - x) (b - y)
      else dst.pix a b := by
  unfold copy_from at h
  split_ifs at h with hc
  · simp only [Option.some.injEq] at h
    subst h
    rfl

/-! ### The quadrant loop -/

lemma quad_step_some {env : Env} {folder : String} {zoom_level back_x back_y : Nat}
    {st st' : ImageBuffer × List String} {i j : Nat}
    (h : quad_step env folder zoom_level back_x back_y st i j = some st') :
    st'.2 = st.2 ++ [tile_path folder zoom_level (back_x * 2 + i) (back_y * 2 + j)] ∧
    (∀ a b, ¬ (i * 256 ≤ a ∧ a < i * 256 + 256 ∧ j * 256 ≤ b ∧ b < j * 256 + 256) →
      st'.1.pix a b = st.1.pix a b) ∧
    (∀ a b, a < 256 → b < 256 →
      (env.pathExists (tile_path folder zoom_level (back_x * 2 + i) (back_y * 2 + j)) = false →
        st'.1.pix (i * 256 + a) (j * 256 + b) = (0, 0, 0, 0)) ∧
      (∀ im,
        env.pathExists (tile_path folder zoom_level (back_x * 2 + i) (back_y * 2 + j)) = true →
        env.decodeImg (tile_path folder zoom_level (back_x * 2 + i) (back_y * 2 + j)) = some im →
        st'.1.pix (i * 256 + a) (j * 256 + b) =
          (env.resize im 256 256 FilterType.Lanczos3).pix a b)) := by
  simp only [quad_step] at h
  split at h
  case isFalse hex =>
    simp only [Option.some.injEq] at h
    subst h
    refine ⟨rfl, ?_, ?_⟩
    · intro a b hab
      rw [fill_transparent_pix]
      rw [if_neg hab]
    · intro a b ha hb
      have hex2 : env.pathExists
          (tile_path folder zoom_level (back_x * 2 + i) (back_y * 2 + j)) = false := by
        cases hb2 : env.pathExists
            (tile_path folder zoom_level (back_x * 2 + i) (back_y * 2 + j))
        · rfl
        · exact absurd hb2 hex
      constructor
      · intro _
        rw [fill_transparent_pix, if_pos (by omega)]
      · intro im htrue _
        rw [hex2] at htrue
        simp at htrue
  case isTrue hex =>
    split at h
    case h_2 => exact absurd h (by simp)
    case h_1 im0 hdec =>
      split at h
      case h_2 => exact absurd h (by simp)
      case h_1 composed hcopy =>
        simp only [Option.some.injEq] at h
        subst h
        have hw := env.resize_width im0 256 256 FilterType.Lanczos3
        have hh := env.resize_height im0 256 256 FilterType.Lanczos3
        refine ⟨rfl, ?_, ?_⟩
        · intro a b hab
          show composed.pix a b = st.1.pix a b
          rw [copy_from_some hcopy, hw, hh, if_neg hab]
        · intro a b ha hb
          constructor
          · intro hfalse
            rw [hex] at hfalse
            simp at hfalse
          · intro im _ him
            rw [hdec] at him
            simp only [Option.some.injEq] at him
            subst him
            show composed.pix (i * 256 + a) (j * 256 + b) = _
            rw [copy_from_some hcopy, hw, hh, if_pos (by omega)]
            congr 1 <;> omega

lemma foldlM_pair {σ α : Type _} (g : σ → α → Option σ) (s : σ) (a b : α) :
    List.foldlM g s [a, b] = (g s a).bind (fun s1 => g s1 b) := by
  cases h1 : g s a with
  | none => simp [List.foldlM, h1]
  | some s1 => cases h2 : g s1 b <;> simp [List.foldlM, h1, h2]

lemma compose_quadrants_steps (env : Env) (folder : String)
    (zoom_level back_x back_y : Nat) (init : ImageBuffer) :
    compose_quadrants env folder zoom_level back_x back_y init =
      ((quad_step env folder zoom_level back_x back_y (init, ([] : List String)) 0 0).bind
        fun s1 => quad_step env folder zoom_level back_x back_y s1 0 1).bind
        fun s2 => (quad_step env folder zoom_level back_x back_y s2 1 0).bind
          fun s3 => quad_step env folder zoom_level back_x back_y s3 1 1 := by
  unfold compose_quadrants
  rw [show List.range 2 = [0, 1] from rfl]
  rw [foldlM_pair]
  simp only [foldlM_pair]

lemma compose_quadrants_spec {env : Env} {folder : String} {zoom_level back_x back_y : Nat}
    {init out : ImageBuffer} {reads : List String}
    (h : compose_quadrants env folder zoom_level back_x back_y init = some (out, reads)) :
    reads = [tile_path folder zoom_level (back_x * 2) (back_y * 2),
             tile_path folder zoom_level (back_x * 2) (back_y * 2 + 1),
             tile_path folder zoom_level (back_x * 2 + 1) (back_y * 2),
             tile_path folder zoom_level (back_x * 2 + 1) (back_y * 2 + 1)] ∧
    ∀ i j, i < 2 → j < 2 → ∀ a b, a < 256 → b < 256 →
      (env.pathExists (tile_path folder zoom_level (back_x * 2 + i) (back_y * 2 + j)) = false →
        out.pix (i * 256 + a) (j * 256 + b) = (0, 0, 0, 0)) ∧
      (∀ im,
        env.pathExists (tile_path folder zoom_level (back_x * 2 + i) (back_y * 2 + j)) = true →
        env.decodeImg (tile_path folder zoom_level (back_x * 2 + i) (back_y * 2 + j)) = some im →
        out.pix (i * 256 + a) (j * 256 + b) =
          (env.resize im 256 256 FilterType.Lanczos3).pix a b) := by
  rw [compose_quadrants_steps] at h
  rcases Option.bind_eq_some.mp h with ⟨s2, h12, h34⟩
  rcases Option.bind_eq_some.mp h12 with ⟨s1, h1, h2⟩
  rcases Option.bind_eq_some.mp h34 with ⟨s3, h3, h4⟩
  constructor
  · have R1 : s1.2 = ([] : List String) ++
        [tile_path folder zoom_level (back_x * 2 + 0) (back_y * 2 + 0)] :=
      (quad_step_some h1).1
    have R2 : s2.2 = s1.2 ++
        [tile_path folder zoom_level (back_x * 2 + 0) (back_y * 2 + 1)] :=
      (quad_step_some h2).1
    have R3 : s3.2 = s2.2 ++
        [tile_path folder zoom_level (back_x * 2 + 1) (back_y * 2 + 0)] :=
      (quad_step_some h3).1
    have R4 : reads = s3.2 ++
        [tile_path folder zoom_level (back_x * 2 + 1) (back_y * 2 + 1)] :=
      (quad_step_some h4).1
    rw [R4, R3, R2, R1]
    simp
  · intro i j hi hj a b ha hb
    interval_cases i <;> interval_cases j
    · have E4 : out.pix (0 * 256 + a) (0 * 256 + b) = s3.1.pix (0 * 256 + a) (0 * 256 + b) :=
        (quad_step_some h4).2.1 _ _ (by omega)
      have E3 : s3.1.pix (0 * 256 + a) (0 * 256 + b) = s2.1.pix (0 * 256 + a) (0 * 256 + b) :=
        (quad_step_some h3).2.1 _ _ (by omega)
      have E2 : s2.1.pix (0 * 256 + a) (0 * 256 + b) = s1.1.pix (0 * 256 + a) (0 * 256 + b) :=
        (quad_step_some h2).2.1 _ _ (by omega)
      have S := (quad_step_some h1).2.2 a b ha hb
      constructor
      · intro hfalse
        rw [E4, E3, E2]
        exact S.1 hfalse
      · intro im ht hd
        rw [E4, E3, E2]
        exact S.2 im ht hd
    · have E4 : out.pix (0 * 256 + a) (1 * 256 + b) = s3.1.pix (0 * 256 + a) (1 * 256 + b) :=
        (quad_step_some h4).2.1 _ _ (by omega)
      have E3 : s3.1.pix (0 * 256 + a) (1 * 256 + b) = s2.1.pix (0 * 256 + a) (1 * 256 + b) :=
        (quad_step_some h3).2.1 _ _ (by omega)
      have S := (quad_step_some h2).2.2 a b ha hb
      constructor
      · intro hfalse
        rw [E4, E3]
        exact S.1 hfalse
      · intro im ht hd
        rw [E4, E3]
        exact S.2 im ht hd
    · have E4 : out.pix (1 * 256 + a) (0 * 256 + b) = s3.1.pix (1 * 256 + a) (0 * 256 + b) :=
        (quad_step_some h4).2.1 _ _ (by omega)
      have S := (quad_step_some h3).2.2 a b ha hb
      constructor
      · intro hfalse
        rw [E4]
        exact S.1 hfalse
      · intro im ht hd
        rw [E4]
        exact S.2 im ht hd
    · have S := (quad_step_some h4).2.2 a b ha hb
      constructor
      · intro hfalse
        exact S.1 hfalse
      · intro im ht hd
        exact S.2 im ht hd

/-! ### The zoom-level scan -/

lemma rev_range_incl_empty (lo hi : Nat) (h : hi < lo) : rev_range_incl lo hi = [] := by
  unfold rev_range_incl
  rw [show hi + 1 - lo = 0 from by omega]
  rfl

lemma rev_range_incl_cons (lo hi : Nat) (h : lo ≤ hi + 1) :
    rev_range_incl lo (hi + 1) = (hi + 1) :: rev_range_incl lo hi := by
  unfold rev_range_incl
  rw [show hi + 1 + 1 - lo = (hi + 1 - lo) + 1 from by omega, List.range'_concat,
    List.reverse_append]
  simp only [List.reverse_cons, List.reverse_nil, List.nil_append, List.singleton_append,
    one_mul]
  rw [show lo + (hi + 1 - lo) = hi + 1 from by omega]

lemma find_last_spec (p : Nat → Bool) (lo : Nat) : ∀ hi, lo ≤ hi →
    (∃ z, (rev_range_incl lo hi).find? p = some z ∧ p z = true ∧ lo ≤ z ∧ z ≤ hi ∧
      ∀ w, z < w → w ≤ hi → p w = false) ∨
    ((rev_range_incl lo hi).find? p = none ∧ ∀ w, lo ≤ w → w ≤ hi → p w = false) := by
  intro hi
  induction hi with
  | zero =>
    intro hlo
    have hlo0 : lo = 0 := Nat.le_zero.mp hlo
    subst hlo0
    rw [show rev_range_incl 0 0 = [0] from rfl]
    cases hp : p 0 with
    | true =>
      left
      exact ⟨0, by rw [List.find?_cons_of_pos _ hp], hp, le_refl _, le_refl _,
        fun w hw hw2 => by omega⟩
    | false =>
      right
      refine ⟨by rw [List.find?_cons_of_neg _ (by simp [hp])]; rfl, fun w h1 h2 => ?_⟩
      have hw0 : w = 0 := by omega
      rw [hw0]
      exact hp
  | succ hi ih =>
    intro hlo
    rw [rev_range_incl_cons lo hi hlo]
    cases hp : p (hi + 1) with
    | true =>
      left
      exact ⟨hi + 1, by rw [List.find?_cons_of_pos _ hp], hp, hlo, le_refl _,
        fun w hw hw2 => by omega⟩
    | false =>
      have hfind : ((hi + 1) :: rev_range_incl lo hi).find? p =
          (rev_range_incl lo hi).find? p := List.find?_cons_of_neg _ (by simp [hp])
      by_cases hlo2 : lo ≤ hi
      · rcases ih hlo2 with ⟨z, hz1, hz2, hz3, hz4, hz5⟩ | ⟨h1, h2⟩
        · left
          refine ⟨z, by rw [hfind]; exact hz1, hz2, hz3, Nat.le_succ_of_le hz4,
            fun w hw hw2 => ?_⟩
          rcases Nat.lt_or_ge w (hi + 1) with hlt | hge
          · exact hz5 w hw (by omega)
          · have hweq : w = hi + 1 := by omega
            rw [hweq]
            exact hp
        · right
          refine ⟨by rw [hfind]; exact h1, fun w hw hw2 => ?_⟩
          rcases Nat.lt_or_ge w (hi + 1) with hlt | hge
          · exact h2 w hw (by omega)
          · have hweq : w = hi + 1 := by omega
            rw [hweq]
            exact hp
      · have hre : rev_range_incl lo hi = [] := rev_range_incl_empty lo hi (by omega)
        right
        refine ⟨by rw [hfind, hre]; rfl, fun w hw hw2 => ?_⟩
        have hweq : w = hi + 1 := by omega
        rw [hweq]
        exact hp

/-! ### Inversion of one reducer call -/

lemma tile_path_parent (folder : String) (z x y : Nat) :
    path_parent (tile_path folder z x y) =
      some (folder ++ "/" ++ fmt_nat z ++ "/" ++ fmt_nat x) := by
  have he : tile_path folder z x y =
      (folder ++ "/" ++ fmt_nat z ++ "/" ++ fmt_nat x) ++ "/" ++ (fmt_nat y ++ ".png") := by
    apply string_data_ext
    simp [tile_path, String.data_append, List.append_assoc]
  rw [he]
  apply path_parent_append
  rw [String.data_append]
  intro hmem
  rcases List.mem_append.mp hmem with hm | hm
  · exact fmt_nat_no_slash y hm
  · exact absurd hm (by decide)

lemma process_image_path_some {env : Env} {folder image_path stem : String}
    {output_zoom_level zoom_level x y : Nat} {eff : ProcEffect}
    (hs : strip_suffix image_path (".png") = some stem)
    (hp : parse_image_path stem = some (x, y))
    (h : process_image_path env folder image_path output_zoom_level zoom_level = some eff) :
    ∃ out reads,
      compose_quadrants env folder zoom_level (x / 2) (y / 2) (ImageBuffer.new 512 512) =
        some (out, reads) ∧
      eff = ⟨reads, [(tile_path folder output_zoom_level (x / 2) (y / 2), out)],
             [folder ++ "/" ++ fmt_nat output_zoom_level ++ "/" ++ fmt_nat (x / 2)], 1⟩ := by
  simp only [process_image_path, hs, hp, tile_path_parent] at h
  split at h
  case h_1 => exact absurd h (by simp)
  case h_2 =>
    rename_i composed reads hcomp
    injection h with h2
    exact ⟨composed, reads, hcomp, h2.symm⟩

/-! ### The tile enumerator -/

lemma collect_inner_mem (folder : String) (ys : List String) :
    ∀ acc p, p ∈ ys.foldl
      (fun image_paths y_path =>
        if path_extension y_path = some ("png") then
          match strip_prefix_path y_path folder with
          | some image_path => image_paths ++ [image_path]
          | none => image_paths
        else image_paths) acc →
    p ∈ acc ∨ ∃ full, path_extension full = some ("png") ∧
      strip_prefix_path full folder = some p := by
  induction ys with
  | nil => exact fun acc p hp => Or.inl hp
  | cons y ys ih =>
    intro acc p hp
    rw [List.foldl_cons] at hp
    rcases ih _ p hp with hacc | hex
    · by_cases hext : path_extension y = some ("png")
      · rw [if_pos hext] at hacc
        cases hsp : strip_prefix_path y folder with
        | none => rw [hsp] at hacc; exact Or.inl hacc
        | some rel =>
          rw [hsp] at hacc
          rcases List.mem_append.mp hacc with h1 | h1
          · exact Or.inl h1
          · exact Or.inr ⟨y, hext, by rw [hsp, List.mem_singleton.mp h1]⟩
      · rw [if_neg hext] at hacc
        exact Or.inl hacc
    · exact Or.inr hex

lemma collect_outer_mem (env : Env) (folder : String) (xs : List String) :
    ∀ acc p, p ∈ xs.foldl
      (fun image_paths x_entry =>
        match env.readDir x_entry with
        | none => image_paths
        | some y_entries =>
          y_entries.foldl
            (fun image_paths y_path =>
              if path_extension y_path = some ("png") then
                match strip_prefix_path y_path folder with
                | some image_path => image_paths ++ [image_path]
                | none => image_paths
              else image_paths)
            image_paths) acc →
    p ∈ acc ∨ ∃ full, path_extension full = some ("png") ∧
      strip_prefix_path full folder = some p := by
  induction xs with
  | nil => exact fun acc p hp => Or.inl hp
  | cons xe xs ih =>
    intro acc p hp
    rw [List.foldl_cons] at hp
    rcases ih _ p hp with hacc | hex
    · cases hrd : env.readDir xe with
      | none => rw [hrd] at hacc; exact Or.inl hacc
      | some ys =>
        rw [hrd] at hacc
        exact collect_inner_mem folder ys acc p hacc
    · exact Or.inr hex

/-! ### Claim theorems -/

/-- Claim C1: for every destination coordinate `(bx, by) = (x/2, y/2)`
processed by the reducer, the set of source tile paths it consults
(existence-checks and, when present, reads) is exactly the four
finer-level coordinates `(2bx, 2by)`, `(2bx+1, 2by)`, `(2bx, 2by+1)`,
`(2bx+1, 2by+1)` at the source zoom level, and no other path. -/
theorem c1_reducer_consults_exactly_quad {env : Env} {folder image_path stem : String}
    {output_zoom_level zoom_level x y : Nat} {eff : ProcEffect}
    (hs : strip_suffix image_path (".png") = some stem)
    (hp : parse_image_path stem = some (x, y))
    (h : process_image_path env folder image_path output_zoom_level zoom_level = some eff) :
    ∀ pth, pth ∈ eff.reads ↔
      pth ∈ [tile_path folder zoom_level (x / 2 * 2) (y / 2 * 2),
             tile_path folder zoom_level (x / 2 * 2 + 1) (y / 2 * 2),
             tile_path folder zoom_level (x / 2 * 2) (y / 2 * 2 + 1),
             tile_path folder zoom_level (x / 2 * 2 + 1) (y / 2 * 2 + 1)] := by
  obtain ⟨out, reads, hcomp, heff⟩ := process_image_path_some hs hp h
  subst heff
  intro pth
  have hr := (compose_quadrants_spec hcomp).1
  show pth ∈ reads ↔ _
  rw [hr]
  simp only [List.mem_cons, List.not_mem_nil, or_false]
  tauto

/-- Claim C2: in the raster the reducer writes, every quadrant offset
`(i, j)` whose source tile does not exist is a fully transparent
256-by-256 region at pixel offset `(i*256, j*256)` (every pixel is RGBA
`(0,0,0,0)`), and every quadrant whose source tile exists carries the
source image decoded, resized to 256x256 with the Lanczos3 filter and
composited at that offset. -/
theorem c2_missing_quadrant_transparent {env : Env} {folder image_path stem : String}
    {output_zoom_level zoom_level x y : Nat} {eff : ProcEffect} {bp : String}
    {out : ImageBuffer}
    (hs : strip_suffix image_path (".png") = some stem)
    (hp : parse_image_path stem = some (x, y))
    (hproc : process_image_path env folder image_path output_zoom_level zoom_level = some eff)
    (hw : eff.writes = [(bp, out)]) :
    ∀ i j, i < 2 → j < 2 → ∀ a b, a < 256 → b < 256 →
      (env.pathExists (tile_path folder zoom_level (x / 2 * 2 + i) (y / 2 * 2 + j)) = false →
        out.pix (i * 256 + a) (j * 256 + b) = (0, 0, 0, 0)) ∧
      (∀ im,
        env.pathExists (tile_path folder zoom_level (x / 2 * 2 + i) (y / 2 * 2 + j)) = true →
        env.decodeImg (tile_path folder zoom_level (x / 2 * 2 + i) (y / 2 * 2 + j)) = some im →
        out.pix (i * 256 + a) (j * 256 + b) =
          (env.resize im 256 256 FilterType.Lanczos3).pix a b) := by
  obtain ⟨out0, reads, hcomp, heff⟩ := process_image_path_some hs hp hproc
  subst heff
  have hw2 : [(tile_path folder output_zoom_level (x / 2) (y / 2), out0)] = [(bp, out)] := hw
  simp only [List.cons.injEq, Prod.mk.injEq, and_true] at hw2
  obtain ⟨-, hout⟩ := hw2
  subst hout
  intro i j hi hj a b ha hb
  exact (compose_quadrants_spec hcomp).2 i j hi hj a b ha hb

/-- Claim C3: for `min_zoom ≤ max_zoom`, `find_last_zoom_level` returns
the greatest zoom in `[min_zoom, max_zoom]` whose directory
`folder/zoom` exists, and `min_zoom` when no such directory exists.  The
embedding is a pure function of the existence predicate, so the scan
performs no writes. -/
theorem c3_find_last_zoom_level_greatest (env : Env) (folder : String)
    (max_zoom min_zoom : Nat) (h : min_zoom ≤ max_zoom) :
    (env.pathExists
        (folder ++ "/" ++ fmt_nat (find_last_zoom_level env folder max_zoom min_zoom)) = true ∧
      min_zoom ≤ find_last_zoom_level env folder max_zoom min_zoom ∧
      find_last_zoom_level env folder max_zoom min_zoom ≤ max_zoom ∧
      ∀ w, find_last_zoom_level env folder max_zoom min_zoom < w → w ≤ max_zoom →
        env.pathExists (folder ++ "/" ++ fmt_nat w) = false) ∨
    (find_last_zoom_level env folder max_zoom min_zoom = min_zoom ∧
      ∀ w, min_zoom ≤ w → w ≤ max_zoom →
        env.pathExists (folder ++ "/" ++ fmt_nat w) = false) := by
  rcases find_last_spec (fun zoom => env.pathExists (folder ++ "/" ++ fmt_nat zoom))
      min_zoom max_zoom h with ⟨z, h1, h2, h3, h4, h5⟩ | ⟨h1, h2⟩
  · left
    unfold find_last_zoom_level
    rw [h1]
    exact ⟨h2, h3, h4, h5⟩
  · right
    unfold find_last_zoom_level
    rw [h1]
    exact ⟨rfl, h2⟩

/-- Claim C4: for every destination coordinate the reducer processes it
writes exactly one file, the composed raster at
`folder/dst_zoom/bx/by.png` with `dst_zoom = zoom_level - 1`, after
creating the directory `folder/dst_zoom/bx` recursively; the save is
unconditional (the statement quantifies over every world, including
those where the destination file already exists, so any existing file is
replaced). -/
theorem c4_writes_exactly_one_file {env : Env} {folder image_path stem : String}
    {zoom_level x y : Nat} {eff : ProcEffect}
    (hs : strip_suffix image_path (".png") = some stem)
    (hp : parse_image_path stem = some (x, y))
    (h : process_image_path env folder image_path (zoom_level - 1) zoom_level = some eff) :
    eff.writes.map Prod.fst = [tile_path folder (zoom_level - 1) (x / 2) (y / 2)] ∧
    eff.dirs = [folder ++ "/" ++ fmt_nat (zoom_level - 1) ++ "/" ++ fmt_nat (x / 2)] := by
  obtain ⟨out, reads, hcomp, heff⟩ := process_image_path_some hs hp h
  subst heff
  exact ⟨rfl, rfl⟩

/-- Claim C5 as stated is false: a two-segment path `"<x>/<y>.<ext>"`
does not round-trip, because `parse_image_path` reads segments 1 and 2
(it expects a leading zoom-level segment).  At `x = 7`, `y = 9`,
`ext = png`, stripping the extension and parsing yields a panic
(modelled `none`), not `(7, 9)`. -/
theorem c5_parse_roundtrip_counterexample :
    ¬ ((strip_suffix ("7/9.png") (".png")).bind parse_image_path = some (7, 9)) := by
  decide

/-- Claim C5 (amended): for every well-formed path
`"<level>/<x>/<y>.png"` whose level segment contains no `/` and whose
coordinates are representable as `u32` (the parse type), stripping the
extension and parsing recovers exactly the pair `(x, y)` used to
construct it. -/
theorem c5_parse_roundtrip_amended (lvl : String) (hlvl : '/' ∉ lvl.data) (x y : Nat)
    (hx : x < 4294967296) (hy : y < 4294967296) :
    (strip_suffix (lvl ++ "/" ++ fmt_nat x ++ "/" ++ fmt_nat y ++ ".png") (".png")).bind
      parse_image_path = some (x, y) := by
  rw [strip_suffix_append_png]
  show parse_image_path (lvl ++ "/" ++ fmt_nat x ++ "/" ++ fmt_nat y) = some (x, y)
  have hsplit : split_slash (lvl ++ "/" ++ fmt_nat x ++ "/" ++ fmt_nat y) =
      [lvl, fmt_nat x, fmt_nat y] := by
    rw [split_slash_append (lvl ++ "/" ++ fmt_nat x) (fmt_nat y),
      split_slash_append lvl (fmt_nat x),
      split_slash_no_slash lvl hlvl,
      split_slash_no_slash _ (fmt_nat_no_slash x),
      split_slash_no_slash _ (fmt_nat_no_slash y)]
    rfl
  simp only [parse_image_path, hsplit, parse_u32_fmt_nat x hx, parse_u32_fmt_nat y hy,
    List.getElem?_cons_succ, List.getElem?_cons_zero]

/-- Claim C6: for every path ending in `.png` whose x or y segment fails
to parse as an integer, the run aborts (the panic is modelled by `none`:
the error is fatal for the invocation), and in particular no output tile
is written for that path. -/
theorem c6_parse_failure_aborts {env : Env} {folder image_path stem : String}
    {output_zoom_level zoom_level : Nat}
    (hs : strip_suffix image_path (".png") = some stem)
    (hfail : (∃ sx, (split_slash stem)[1]? = some sx ∧ parse_u32 sx = none) ∨
             (∃ sy, (split_slash stem)[2]? = some sy ∧ parse_u32 sy = none)) :
    process_image_path env folder image_path output_zoom_level zoom_level = none := by
  have hp : parse_image_path stem = none := by
    rcases hfail with ⟨sx, h1, h2⟩ | ⟨sy, h1, h2⟩
    · simp only [parse_image_path, h1, h2]
    · cases hx1 : (split_slash stem)[1]? with
      | none => simp only [parse_image_path, hx1]
      | some sx =>
        cases hx2 : parse_u32 sx with
        | none => simp only [parse_image_path, hx1, hx2]
        | some xv => simp only [parse_image_path, hx1, hx2, h1, h2]
  simp only [process_image_path, hs, hp]

/-- Claim C7: the tile enumerator returns the empty list (not an error)
when the zoom directory is missing or unreadable, and every path it
returns names a file whose extension is `png` (files with any other
extension are never included). -/
theorem c7_enumerator_empty_and_png_only (env : Env) (folder : String) (zoom_level : Nat) :
    (env.readDir (folder ++ "/" ++ fmt_nat zoom_level) = none →
      collect_image_paths env folder zoom_level = []) ∧
    (∀ p ∈ collect_image_paths env folder zoom_level,
      ∃ full, path_extension full = some ("png") ∧
        strip_prefix_path full folder = some p) := by
  constructor
  · intro h
    simp only [collect_image_paths, h]
  · intro p hp
    simp only [collect_image_paths] at hp
    cases hrd : env.readDir (folder ++ "/" ++ fmt_nat zoom_level) with
    | none => rw [hrd] at hp; simp at hp
    | some xs =>
      rw [hrd] at hp
      rcases collect_outer_mem env folder xs [] p hp with h0 | hex
      · simp at h0
      · exact hex

/-- Claim C8: the reducer is deterministic in the source tiles — it is a
pure function of the world `env` — and its result depends only on the
destination coordinate: two enumerated source paths mapping to the same
destination coordinate produce identical effects (the same write of the
same bytes), so redundant recomputation rewrites the same file and
deduplicating destination coordinates cannot change the on-disk result. -/
theorem c8_same_destination_same_output {env : Env} {folder p1 p2 s1 s2 : String}
    {output_zoom_level zoom_level x1 y1 x2 y2 : Nat}
    (hs1 : strip_suffix p1 (".png") = some s1)
    (hp1 : parse_image_path s1 = some (x1, y1))
    (hs2 : strip_suffix p2 (".png") = some s2)
    (hp2 : parse_image_path s2 = some (x2, y2))
    (hx : x1 / 2 = x2 / 2) (hy : y1 / 2 = y2 / 2) :
    process_image_path env folder p1 output_zoom_level zoom_level =
      process_image_path env folder p2 output_zoom_level zoom_level := by
  simp only [process_image_path, hs1, hs2, hp1, hp2, hx, hy]

/-- Claim C9: for every input path that does not end in `.png`, the
reducer writes no file, creates no directory, consults no source tile
and signals no error; its only observable effect is one progress-bar
increment. -/
theorem c9_non_png_skipped (env : Env) (folder : String) {image_path : String}
    (output_zoom_level zoom_level : Nat)
    (h : (".png" : String).data.isSuffixOf image_path.data = false) :
    process_image_path env folder image_path output_zoom_level zoom_level =
      some { reads := [], writes := [], dirs := [], progress := 1 } := by
  have hs : strip_suffix image_path (".png") = none := by
    unfold strip_suffix
    rw [h]
    simp
  simp only [process_image_path, hs]

/-- Claim C10: when `min_zoom > max_zoom`, the scanned range is empty
(no directory is ever checked), `find_last_zoom_level` returns
`min_zoom`, and the driver loop starting at that level runs zero
iterations and so produces no output. -/
theorem c10_inverted_range_returns_min (env : Env) (folder : String)
    (max_zoom min_zoom : Nat) (h : max_zoom < min_zoom) :
    find_last_zoom_level env folder max_zoom min_zoom = min_zoom ∧
    rev_range_incl min_zoom max_zoom = [] ∧
    main_loop env folder (find_last_zoom_level env folder max_zoom min_zoom) min_zoom =
      some [] := by
  have he : rev_range_incl min_zoom max_zoom = [] := rev_range_incl_empty _ _ h
  have hf : find_last_zoom_level env folder max_zoom min_zoom = min_zoom := by
    unfold find_last_zoom_level
    rw [he]
    rfl
  refine ⟨hf, he, ?_⟩
  rw [hf]
  unfold main_loop
  simp

/-! ### Concrete witnesses -/

/-- Witness for C1: processing `1/5/7.png` (destination `(2, 3)`) in the
empty world really consults the quad path `(4, 6)` of zoom 3. -/
theorem c1_reducer_consults_exactly_quad_witness : tile_path ("r") 3 4 6 ∈ effW.reads :=
  (c1_reducer_consults_exactly_quad
    (show strip_suffix ("1/5/7.png") (".png") = some ("1/5/7") from rfl)
    (show parse_image_path ("1/5/7") = some (5, 7) from rfl)
    (show process_image_path envNone ("r") ("1/5/7.png") 2 3 = some effW from rfl)
    (tile_path ("r") 3 4 6)).mpr (by simp)

set_option maxRecDepth 8192 in
/-- Witness for C2: in the raster written for `1/5/7.png` in the empty
world, the pixel at offset `(7, 9)` of quadrant `(1, 1)` is transparent. -/
theorem c2_missing_quadrant_transparent_witness :
    imgW.pix (1 * 256 + 7) (1 * 256 + 9) = (0, 0, 0, 0) :=
  (c2_missing_quadrant_transparent
    (show strip_suffix ("1/5/7.png") (".png") = some ("1/5/7") from rfl)
    (show parse_image_path ("1/5/7") = some (5, 7) from rfl)
    (show process_image_path envNone ("r") ("1/5/7.png") 2 3 = some effW from rfl)
    (show effW.writes = [(tile_path ("r") 2 2 3, imgW)] from rfl)
    1 1 (by omega) (by omega) 7 9 (by omega) (by omega)).1 rfl

/-- Witness for C3 at a world where only `r/3` exists and the range is
`[0, 5]`. -/
theorem c3_find_last_zoom_level_greatest_witness :
    envZoom3.pathExists
      (("r") ++ "/" ++ fmt_nat (find_last_zoom_level envZoom3 ("r") 5 0)) = true ∨
    find_last_zoom_level envZoom3 ("r") 5 0 = 0 :=
  (c3_find_last_zoom_level_greatest envZoom3 ("r") 5 0 (by omega)).imp
    (fun hl => hl.1) (fun hr => hr.1)

/-- Witness for C4: processing `1/5/7.png` at zoom 3 writes exactly
`r/2/2/3.png` and creates exactly `r/2/2`. -/
theorem c4_writes_exactly_one_file_witness :
    effW.writes.map Prod.fst = [tile_path ("r") (3 - 1) (5 / 2) (7 / 2)] ∧
    effW.dirs = [("r") ++ "/" ++ fmt_nat (3 - 1) ++ "/" ++ fmt_nat (5 / 2)] :=
  c4_writes_exactly_one_file
    (show strip_suffix ("1/5/7.png") (".png") = some ("1/5/7") from rfl)
    (show parse_image_path ("1/5/7") = some (5, 7) from rfl)
    (show process_image_path envNone ("r") ("1/5/7.png") (3 - 1) 3 = some effW from rfl)

/-- Witness for the amended C5 at `level = 7`, `x = 4`, `y = 5`. -/
theorem c5_parse_roundtrip_amended_witness :
    (strip_suffix (("7") ++ "/" ++ fmt_nat 4 ++ "/" ++ fmt_nat 5 ++ ".png") (".png")).bind
      parse_image_path = some (4, 5) :=
  c5_parse_roundtrip_amended ("7") (by decide) 4 5 (by omega) (by omega)

/-- Witness for C6: the path `1/a/5.png` (non-numeric x segment) aborts
the run. -/
theorem c6_parse_failure_aborts_witness :
    process_image_path envNone ("r") ("1/a/5.png") 2 3 = none :=
  c6_parse_failure_aborts
    (show strip_suffix ("1/a/5.png") (".png") = some ("1/a/5") from rfl)
    (Or.inl ⟨("a"), rfl, rfl⟩)

/-- Witness for C7: in the empty world the enumerator returns the empty
list. -/
theorem c7_enumerator_empty_and_png_only_witness :
    collect_image_paths envNone ("r") 3 = [] :=
  (c7_enumerator_empty_and_png_only envNone ("r") 3).1 rfl

/-- Witness for C8: `1/4/9.png` and `1/5/8.png` both map to destination
`(2, 4)` and produce identical effects. -/
theorem c8_same_destination_same_output_witness :
    process_image_path envNone ("r") ("1/4/9.png") 2 3 =
      process_image_path envNone ("r") ("1/5/8.png") 2 3 :=
  c8_same_destination_same_output
    (show strip_suffix ("1/4/9.png") (".png") = some ("1/4/9") from rfl)
    (show parse_image_path ("1/4/9") = some (4, 9) from rfl)
    (show strip_suffix ("1/5/8.png") (".png") = some ("1/5/8") from rfl)
    (show parse_image_path ("1/5/8") = some (5, 8) from rfl)
    rfl rfl

/-- Witness for C9: a `.jpg` path yields only the progress increment. -/
theorem c9_non_png_skipped_witness :
    process_image_path envNone ("r") ("1/2/3.jpg") 2 3 =
      some { reads := [], writes := [], dirs := [], progress := 1 } :=
  c9_non_png_skipped envNone ("r") 2 3 (by decide)

/-- Witness for C10 at `max_zoom = 0 < min_zoom = 1`. -/
theorem c10_inverted_range_returns_min_witness :
    find_last_zoom_level envNone ("r") 0 1 = 1 ∧
    rev_range_incl 1 0 = [] ∧
    main_loop envNone ("r") (find_last_zoom_level envNone ("r") 0 1) 1 = some [] :=
  c10_inverted_range_returns_min envNone ("r") 0 1 (by omega)
